import Mathlib

/-!
# Resource cache of `src/exercises-final/07.js`

A shallow embedding of `createResource`, `createPokemonResource`, `PokemonInfo`
and `handleGoClick`, together with the part of the JavaScript promise
machinery they rely on: a continuation passed to `then` never runs inside the
call of `then`, it runs later as a queued job, and the promise that `then`
returns is resolved by that same job, after the continuation has returned.
-/

namespace ReactSuspense

/-! ## Values -/

/-- One entry of `pokemon.attacks.special`. -/
structure Attack where
  name : String
  damage : Nat
  type : String
  deriving DecidableEq, Repr

/-- The record the fetch collaborator resolves with; only the attributes that
`PokemonInfo` consumes. -/
structure Pokemon where
  name : String
  number : String
  special : List Attack
  fetchedAt : String
  deriving DecidableEq, Repr

/-- JavaScript values that can be stored in `result`. -/
inductive JSValue where
  | undefined
  | num (n : Int)
  | str (s : String)
  | record (p : Pokemon)
  | error (message : String)
  deriving DecidableEq, Repr

/-- The state of a promise. -/
inductive PromiseState where
  | pending
  | fulfilled (v : JSValue)
  | rejected (e : JSValue)
  deriving DecidableEq, Repr

/-- The identity of a promise object: either an operation owned by the
environment (what a producer hands back), or the promise that the `then` call
of the `k`-th activation of `createResource` returned. -/
inductive PromiseRef where
  | operation (i : Nat)
  | chained (k : Nat)
  deriving DecidableEq, Repr

/-- What a `throw` statement can raise in this program. -/
inductive Thrown where
  | promise (p : PromiseRef)
  | value (e : JSValue)
  | newError (message : String)
  | typeError
  deriving DecidableEq, Repr

/-- How a call completes: it returns a value or it throws. -/
inductive Completion (α : Type) where
  | returned (v : α)
  | threw (t : Thrown)
  deriving DecidableEq, Repr

/-! ## State -/

/-- An offscreen image element: its `src` and, when `onload` is set to
`() => resolve(src)`, the operation that handler resolves and the value it
resolves it with. -/
structure Img where
  src : String
  onload : Option (Nat × String)
  deriving DecidableEq, Repr

/-- The part of the world that code outside `createResource` can reach: the
operations producers hand out, the image elements, and the log of calls of the
fetch collaborator. -/
structure Env where
  operations : List PromiseState
  images : List Img
  fetchCalls : List (String × Nat)
  deriving DecidableEq, Repr

/-- The variables of one activation of `createResource` (lines 23-25):
`status`, `result`, `promise`, with the state of the promise object that
`promise` is bound to and the promise the continuations are registered on.
`resultWrites` counts the assignments to `result`. -/
structure Cell where
  status : String
  result : JSValue
  promise : PromiseRef
  promiseState : PromiseState
  source : PromiseRef
  resultWrites : Nat
  deriving DecidableEq, Repr

/-- The whole state: the environment, one cell per `createResource` activation,
and the log of producer invocations (the index of the resource a producer was
invoked for). -/
structure World where
  env : Env
  cells : List Cell
  calls : List Nat
  deriving DecidableEq, Repr

/-- The object `createResource` returns: its `read` closes over one cell. -/
structure Resource where
  cell : Nat
  deriving DecidableEq, Repr

/-- A zero-argument producer: it may act on the environment and hands back a
promise. The variables of `createResource` are out of its reach. A producer
that throws, or hands back something without a `then` method, makes
`createResource` throw and no resource exists: such producers are not
modelled. -/
abbrev Producer := Env → Env × PromiseRef

/-- The world before anything ran. -/
def World.empty : World :=
  { env := { operations := [], images := [], fetchCalls := [] }, cells := [], calls := [] }

/-- The state of a promise object; a reference to no object never settles. -/
def World.stateOf (w : World) : PromiseRef → PromiseState
  | .operation i => (w.env.operations[i]?).getD .pending
  | .chained k => ((w.cells[k]?).map Cell.promiseState).getD .pending

/-! ## `createResource` -/

/-- Lines 26-29: `r => { status = 'success'; result = r }`. -/
def Cell.onFulfilled (c : Cell) (r : JSValue) : Cell :=
  { c with status := "success", result := r, resultWrites := c.resultWrites + 1 }

/-- Lines 30-33: `e => { status = 'error'; result = e }`. -/
def Cell.onRejected (c : Cell) (e : JSValue) : Cell :=
  { c with status := "error", result := e, resultWrites := c.resultWrites + 1 }

/-- The job that `then` queues for a cell once the promise it was called on is
in state `s`: it runs the matching continuation, then resolves the promise
`then` returned with the continuation's return value (`undefined`). The
registration is consumed by the job, so it runs at most once: it is there as
long as the returned promise is pending. -/
def Cell.react (c : Cell) (s : PromiseState) : Cell :=
  match c.promiseState, s with
  | .pending, .fulfilled v => { c.onFulfilled v with promiseState := .fulfilled .undefined }
  | .pending, .rejected e => { c.onRejected e with promiseState := .fulfilled .undefined }
  | _, _ => c

/-- Lines 22-43. `status = 'pending'`, `result` unset, `asyncFn()` is called,
`then` registers the two continuations and its return value is bound to
`promise`; nothing of the continuations runs here. -/
def createResource (asyncFn : Producer) (w : World) : World × Resource :=
  let k := w.cells.length
  let called := asyncFn w.env
  let cell : Cell :=
    { status := "pending", result := .undefined, promise := .chained k,
      promiseState := .pending, source := called.2, resultWrites := 0 }
  ({ env := called.1, cells := w.cells ++ [cell], calls := w.calls ++ [k] }, { cell := k })

/-- Lines 36-41, the body of `read`. -/
def Cell.read (c : Cell) : Completion JSValue :=
  if c.status = "pending" then .threw (.promise c.promise)
  else if c.status = "error" then .threw (.value c.result)
  else if c.status = "success" then .returned c.result
  else .threw (.newError "This should be impossible")

/-- A call of `read()` on a resource; `none` when the handle names no cell. -/
def read (w : World) (r : Resource) : Option (Completion JSValue) :=
  (w.cells[r.cell]?).map Cell.read

/-! ## Producers and collaborators -/

/-- A producer that builds a new operation which is in state `s` when it is
handed back, such as `() => Promise.resolve(v)` for `s = fulfilled v`. -/
def Producer.fresh (s : PromiseState) : Producer := fun env =>
  ({ env with operations := env.operations ++ [s] }, .operation env.operations.length)

/-- A producer that hands back a promise that exists already. -/
def Producer.reuse (p : PromiseRef) : Producer := fun env => (env, p)

/-- Modelled from the spec: the two collaborators imported from
`../fetch-pokemon`, a module that is not among the sources, the async data
collaborator `fetch(name, delayMs) -> AsyncResult<Record>` and the image URL
collaborator `imageUrlFor(name) -> string`. They are parameters: what state the
operation returned by `fetchPokemon(name, delay)` is in on return, and the URL
`getImageUrlForPokemon(name)`. -/
structure Collaborators where
  fetchState : String → Nat → PromiseState
  getImageUrlForPokemon : String → String

/-- Modelled from the spec: a call `fetchPokemon(name, delay)` of the missing
module; it is logged and hands back a new asynchronous operation. -/
def fetchPokemon (C : Collaborators) (name : String) (delay : Nat) : Producer := fun env =>
  ({ env with operations := env.operations ++ [C.fetchState name delay],
              fetchCalls := env.fetchCalls ++ [(name, delay)] },
   .operation env.operations.length)

/-- Lines 50-55: `new Promise(resolve => { const img = new Image(); ... })`
with `img.src = src` and `img.onload = () => resolve(src)`. -/
def preloadImage (C : Collaborators) (lowerName : String) : Producer := fun env =>
  let src := C.getImageUrlForPokemon lowerName
  ({ env with operations := env.operations ++ [.pending],
              images := env.images ++ [{ src := src, onload := some (env.operations.length, src) }] },
   .operation env.operations.length)

/-- The object `createPokemonResource` returns. -/
structure PokemonResource where
  data : Resource
  image : Resource
  deriving DecidableEq, Repr

/-- Lines 45-58. -/
def createPokemonResource (C : Collaborators) (pokemonName : String) (delay : Nat)
    (w : World) : World × PokemonResource :=
  let lowerName := pokemonName
  let d := createResource (fetchPokemon C lowerName delay) w
  let i := createResource (preloadImage C lowerName) d.1
  (i.1, { data := d.2, image := i.2 })

/-- Lines 114-120. -/
def favoritePokemon : List (String × Nat) :=
  [("charizard", 1000), ("bulbasaur", 500), ("ditto", 2000),
   ("mewtwo", 500), ("mew", 2500), ("pikachu", 400)]

/-- Lines 184-187, the `map` inside `handleGoClick`, over a list of items. -/
def buildResources (C : Collaborators) :
    List (String × Nat) → World → World × List (String × PokemonResource)
  | [], w => (w, [])
  | (name, delay) :: rest, w =>
    let made := createPokemonResource C name delay w
    let tail := buildResources C rest made.1
    (tail.1, (name, made.2) :: tail.2)

/-- Lines 182-191: the new resource-set built by one click. -/
def handleGoClick (C : Collaborators) (w : World) : World × List (String × PokemonResource) :=
  buildResources C favoritePokemon w

/-! ## Events -/

/-- Operation `i` is resolved or rejected; a settled promise stays as it is. -/
def resolveOp (i : Nat) (s : PromiseState) (w : World) : World :=
  match w.env.operations[i]? with
  | some .pending => { w with env := { w.env with operations := w.env.operations.set i s } }
  | _ => w

/-- The `resolve` function of operation `i` was captured by the `onload`
handler of an image (lines 50-54): nothing else can settle that operation. -/
def Env.heldByImage (env : Env) (i : Nat) : Bool :=
  env.images.any (fun img => img.onload.map Prod.fst == some i)

/-- The environment settles operation `i`, if it can reach it. -/
def settle (i : Nat) (s : PromiseState) (w : World) : World :=
  if w.env.heldByImage i then w else resolveOp i s w

/-- The queued job of cell `k` runs, if there is one. -/
def deliver (k : Nat) (w : World) : World :=
  match w.cells[k]? with
  | some c => { w with cells := w.cells.set k (c.react (w.stateOf c.source)) }
  | none => w

/-- One round over the queued jobs, in creation order. -/
def deliverAll (w : World) : World :=
  (List.range w.cells.length).foldl (fun acc k => deliver k acc) w

/-- A microtask checkpoint: rounds are repeated so that a job queued by a job
of the same checkpoint runs too. -/
def checkpoint (w : World) : World :=
  Nat.iterate deliverAll w.cells.length w

/-- The browser reports image `i` loaded: the `onload` handler runs
(`resolve(src)`), and the task ends with a microtask checkpoint. -/
def imageLoad (i : Nat) (w : World) : World :=
  match w.env.images[i]? with
  | some img =>
    match img.onload with
    | some (op, src) => checkpoint (resolveOp op (.fulfilled (.str src)) w)
    | none => checkpoint w
  | none => checkpoint w

/-- What can happen after resources were created. Events may come in any
order: code can run between the settlement of an operation and the job that
delivers it to a resource (a read in the same synchronous run as the
settlement, for one), and queued jobs may run in any order, which includes the
order of the job queue. -/
inductive Event where
  | settle (i : Nat) (s : PromiseState)
  | deliver (k : Nat)
  | checkpoint
  | imageLoad (i : Nat)
  | read (r : Resource)
  deriving DecidableEq, Repr

/-- One event. A `read()` assigns nothing and calls nothing. -/
def step (w : World) : Event → World
  | .settle i s => settle i s w
  | .deliver k => deliver k w
  | .checkpoint => checkpoint w
  | .imageLoad i => imageLoad i w
  | .read _ => w

/-- A finite sequence of events. -/
def run (es : List Event) (w : World) : World :=
  es.foldl step w

/-! ## `PokemonInfo` -/

/-- What `PokemonInfo` renders from the two reads. -/
structure Content where
  imgSrc : JSValue
  imgAlt : String
  name : String
  number : String
  attacks : List Attack
  fetchedAt : String
  deriving DecidableEq, Repr

/-- A render of `PokemonInfo`: the reads it made, in order, and how it
completed. -/
structure Render where
  reads : List Resource
  outcome : Completion Content
  deriving DecidableEq, Repr

/-- Lines 60-94 on the results of the two reads: `data.read()` on line 61,
`image.read()` on line 66, then the property accesses on `pokemon`. -/
def renderWith (pokemonResource : PokemonResource)
    (dataRead imageRead : Completion JSValue) : Render :=
  match dataRead with
  | .threw t => { reads := [pokemonResource.data], outcome := .threw t }
  | .returned pokemon =>
    match imageRead with
    | .threw t => { reads := [pokemonResource.data, pokemonResource.image], outcome := .threw t }
    | .returned src =>
      { reads := [pokemonResource.data, pokemonResource.image],
        outcome :=
          match pokemon with
          | .record p =>
            .returned { imgSrc := src, imgAlt := p.name, name := p.name, number := p.number,
                        attacks := p.special, fetchedAt := p.fetchedAt }
          | _ => .threw .typeError }

/-- Lines 60-94. -/
def PokemonInfo (w : World) (pokemonResource : PokemonResource) : Option Render :=
  match read w pokemonResource.data, read w pokemonResource.image with
  | some d, some i => some (renderWith pokemonResource d i)
  | _, _ => none


/-! ## Sample data -/

/-- A record as the fetch collaborator resolves with. -/
def pikachu : Pokemon :=
  { name := "Pikachu", number := "025",
    special := [{ name := "Thunderbolt", damage := 55, type := "Electric" }],
    fetchedAt := "12:00:00" }

/-- Collaborators whose fetch is still in flight when it returns. -/
def slowFetch : Collaborators :=
  { fetchState := fun _ _ => .pending
    getImageUrlForPokemon := fun name => "/img/pokemon/" ++ name ++ ".jpg" }

/-- Collaborators whose fetch hands back an operation that is resolved
already, as a fetch layer with a cache does. -/
def cachedFetch : Collaborators :=
  { fetchState := fun _ _ => .fulfilled (.record pikachu)
    getImageUrlForPokemon := fun name => "/img/pokemon/" ++ name ++ ".jpg" }

/-- Collaborators whose fetch of charizard is rejected, the others in flight. -/
def failingFetch : Collaborators :=
  { fetchState := fun name _ =>
      if name = "charizard" then .rejected (.error "No pokemon found") else .pending
    getImageUrlForPokemon := fun name => "/img/pokemon/" ++ name ++ ".jpg" }

/-! ## The life of a cell -/

/-- The three phases of a cell whose continuations are registered on a promise
in state `s`: nothing delivered yet; the success continuation has run with the
value `s` holds; the failure continuation has run with the error `s` holds. -/
def Phase (c : Cell) (s : PromiseState) : Prop :=
  (c.promiseState = .pending ∧ c.status = "pending" ∧ c.result = .undefined ∧
      c.resultWrites = 0)
  ∨ (∃ v, s = .fulfilled v ∧ c.promiseState = .fulfilled .undefined ∧
      c.status = "success" ∧ c.result = v ∧ c.resultWrites = 1)
  ∨ (∃ e, s = .rejected e ∧ c.promiseState = .fulfilled .undefined ∧
      c.status = "error" ∧ c.result = e ∧ c.resultWrites = 1)

/-- Cell `k` of `w` is `c`; it was registered on `src`, its `promise` is its own
chained promise, it is in one of the three phases, and it is either still the
cell `c0` seen earlier or `c0` was pending and `c` no longer is. -/
structure Tracks (k : Nat) (src : PromiseRef) (c0 : Cell) (w : World) (c : Cell) : Prop where
  here : w.cells[k]? = some c
  source : c.source = src
  promise : c.promise = .chained k
  phase : Phase c (w.stateOf src)
  origin : c = c0 ∨ (c0.status = "pending" ∧ c0.resultWrites = 0 ∧ c.status ≠ "pending")

/-- Some cell is tracked at index `k`. -/
def Tracked (k : Nat) (src : PromiseRef) (c0 : Cell) (w : World) : Prop :=
  ∃ c, Tracks k src c0 w c

/-- The job queued for the resource has run, and with it one of the two
continuations of lines 26-33: the promise that `then` returned is settled. -/
abbrev continuationRan (w : World) (r : Resource) : Prop :=
  w.stateOf (.chained r.cell) ≠ .pending

/-- The resource is still pending: `status` is `'pending'`. -/
abbrev isPending (w : World) (r : Resource) : Prop :=
  (w.cells[r.cell]?).map Cell.status = some "pending"

/-- Every `onload` handler resolves an operation that exists. -/
def Env.WellFormed (env : Env) : Prop :=
  ∀ img ∈ env.images, ∀ op src, img.onload = some (op, src) → op < env.operations.length

/-- The images are `imgs`, and operation `op` is pending or resolved with the
URL `url`. -/
def ImageInv (imgs : List Img) (op : Nat) (url : String) (w : World) : Prop :=
  w.env.images = imgs
  ∧ (w.env.operations[op]? = some .pending
    ∨ w.env.operations[op]? = some (.fulfilled (.str url)))

/-- The job of cell `k`, registered on `src`, has run. -/
def Delivered (k : Nat) (src : PromiseRef) (c0 : Cell) (w : World) : Prop :=
  ∃ c, Tracks k src c0 w c ∧ c.promiseState ≠ .pending

/-- The cell `createResource` allocates. -/
def newCell (k : Nat) (src : PromiseRef) : Cell :=
  { status := "pending", result := .undefined, promise := .chained k,
    promiseState := .pending, source := src, resultWrites := 0 }

/-! ## Frame lemmas -/

theorem resolveOp_cells (i : Nat) (s : PromiseState) (w : World) :
    (resolveOp i s w).cells = w.cells := by
  unfold resolveOp; split <;> rfl

theorem resolveOp_calls (i : Nat) (s : PromiseState) (w : World) :
    (resolveOp i s w).calls = w.calls := by
  unfold resolveOp; split <;> rfl

theorem resolveOp_images (i : Nat) (s : PromiseState) (w : World) :
    (resolveOp i s w).env.images = w.env.images := by
  unfold resolveOp; split <;> rfl

theorem resolveOp_fetchCalls (i : Nat) (s : PromiseState) (w : World) :
    (resolveOp i s w).env.fetchCalls = w.env.fetchCalls := by
  unfold resolveOp; split <;> rfl

theorem deliver_env (k : Nat) (w : World) : (deliver k w).env = w.env := by
  unfold deliver; split <;> rfl

theorem deliver_calls (k : Nat) (w : World) : (deliver k w).calls = w.calls := by
  unfold deliver; split <;> rfl

theorem deliver_length (k : Nat) (w : World) :
    (deliver k w).cells.length = w.cells.length := by
  unfold deliver; split <;> simp

theorem deliver_get_ne {j k : Nat} (h : j ≠ k) (w : World) :
    (deliver k w).cells[j]? = w.cells[j]? := by
  unfold deliver
  split
  · simp [List.getElem?_set, Ne.symm h]
  · rfl

theorem deliver_get_self {k : Nat} {w : World} {c : Cell} (h : w.cells[k]? = some c) :
    (deliver k w).cells[k]? = some (c.react (w.stateOf c.source)) := by
  have hk : k < w.cells.length := by
    rcases Nat.lt_or_ge k w.cells.length with hlt | hge
    · exact hlt
    · rw [List.getElem?_eq_none hge] at h; cases h
  unfold deliver
  rw [h]
  simp [List.getElem?_set, hk]

/-- A job leaves a cell alone unless the promise `then` returned is pending. -/
theorem react_of_settled {c : Cell} (s : PromiseState) (h : c.promiseState ≠ .pending) :
    c.react s = c := by
  unfold Cell.react
  cases hp : c.promiseState with
  | pending => exact absurd hp h
  | fulfilled v => rfl
  | rejected e => rfl

/-- A job leaves a cell alone while the promise it waits for is pending. -/
theorem react_pending (c : Cell) : c.react .pending = c := by
  unfold Cell.react
  cases c.promiseState <;> rfl

/-! ## Induction over events -/

/-- A property kept by the primitive steps is kept by every sequence of events:
a settlement by the environment of an operation no image holds, the `resolve`
call of an `onload` handler, and the run of one queued job. -/
theorem run_induction_owned (P : World → Prop)
    (hs : ∀ w i s, P w → w.env.heldByImage i = false → P (resolveOp i s w))
    (hi : ∀ (w : World) (i : Nat) (img : Img) (op : Nat) (src : String), P w →
      w.env.images[i]? = some img → img.onload = some (op, src) →
      P (resolveOp op (.fulfilled (.str src)) w))
    (hd : ∀ w k, P w → P (deliver k w)) :
    ∀ (es : List Event) (w : World), P w → P (run es w) := by
  have hfold : ∀ (l : List Nat) (w : World), P w → P (l.foldl (fun acc k => deliver k acc) w) := by
    intro l
    induction l with
    | nil => intro w h; exact h
    | cons k l ih => intro w h; exact ih _ (hd w k h)
  have hall : ∀ w, P w → P (deliverAll w) := fun w h => hfold _ w h
  have hiter : ∀ (n : Nat) (w : World), P w → P (Nat.iterate deliverAll n w) := by
    intro n
    induction n with
    | zero => intro w h; exact h
    | succ n ih => intro w h; exact ih _ (hall w h)
  have hcp : ∀ w, P w → P (checkpoint w) := fun w h => hiter _ w h
  have hstep : ∀ (e : Event) (w : World), P w → P (step w e) := by
    intro e w h
    cases e with
    | settle i s =>
      show P (settle i s w)
      unfold settle
      split
      · exact h
      · rename_i hheld
        exact hs w i s h (by simpa using hheld)
    | deliver k => exact hd w k h
    | checkpoint => exact hcp w h
    | imageLoad i =>
      show P (imageLoad i w)
      unfold imageLoad
      split
      · rename_i img himg
        split
        · rename_i op src hon
          exact hcp _ (hi w i img op src h himg hon)
        · exact hcp w h
      · exact hcp w h
    | read r => exact h
  intro es
  induction es with
  | nil => intro w h; exact h
  | cons e es ih => intro w h; exact ih _ (hstep e w h)

/-- A property kept by every settlement and every job is kept by every sequence
of events. -/
theorem run_induction (P : World → Prop)
    (hs : ∀ w i s, P w → P (resolveOp i s w))
    (hd : ∀ w k, P w → P (deliver k w)) :
    ∀ (es : List Event) (w : World), P w → P (run es w) :=
  run_induction_owned P (fun w i s h _ => hs w i s h) (fun w _ _ op _ h _ _ => hs w op _ h) hd

theorem run_append (es fs : List Event) (w : World) :
    run (es ++ fs) w = run fs (run es w) := by
  simp [run, List.foldl_append]

/-! ## A settled promise stays settled -/

theorem stateOf_resolveOp {w : World} {p : PromiseRef} (i : Nat) (s : PromiseState)
    (h : w.stateOf p ≠ .pending) : (resolveOp i s w).stateOf p = w.stateOf p := by
  cases p with
  | chained k => simp [World.stateOf, resolveOp_cells]
  | operation j =>
    unfold resolveOp
    split
    · rename_i hi
      by_cases hji : i = j
      · subst hji
        simp [World.stateOf, hi] at h
      · simp [World.stateOf, List.getElem?_set, hji]
    · rfl

theorem stateOf_deliver {w : World} {p : PromiseRef} (k : Nat)
    (h : w.stateOf p ≠ .pending) : (deliver k w).stateOf p = w.stateOf p := by
  cases p with
  | operation j => simp [World.stateOf, deliver_env]
  | chained j =>
    by_cases hjk : j = k
    · subst hjk
      cases hc : w.cells[j]? with
      | none => simp [deliver, hc]
      | some c =>
        have hps : c.promiseState ≠ .pending := by
          simpa [World.stateOf, hc] using h
        simp [World.stateOf, deliver_get_self hc, hc, react_of_settled _ hps]
    · simp [World.stateOf, deliver_get_ne hjk]

/-! ## The invariant -/

theorem phase_mono {c : Cell} {s t : PromiseState} (h : Phase c s)
    (hst : s ≠ .pending → t = s) : Phase c t := by
  rcases h with h | ⟨v, hs, h⟩ | ⟨e, hs, h⟩
  · exact Or.inl h
  · have : t = s := hst (by rw [hs]; intro hh; cases hh)
    exact Or.inr (Or.inl ⟨v, by rw [this, hs], h⟩)
  · have : t = s := hst (by rw [hs]; intro hh; cases hh)
    exact Or.inr (Or.inr ⟨e, by rw [this, hs], h⟩)

theorem tracks_resolveOp {k : Nat} {src : PromiseRef} {c0 c : Cell} {w : World}
    (i : Nat) (s : PromiseState) (h : Tracks k src c0 w c) :
    Tracks k src c0 (resolveOp i s w) c :=
  { here := by rw [resolveOp_cells]; exact h.here
    source := h.source
    promise := h.promise
    phase := phase_mono h.phase (fun hne => stateOf_resolveOp i s hne)
    origin := h.origin }

theorem tracks_deliver {k : Nat} {src : PromiseRef} {c0 c : Cell} {w : World}
    (j : Nat) (h : Tracks k src c0 w c) :
    Tracks k src c0 (deliver j w) (if j = k then c.react (w.stateOf src) else c) := by
  by_cases hjk : j = k
  · subst hjk
    simp only [if_true]
    have hget : (deliver j w).cells[j]? = some (c.react (w.stateOf src)) := by
      rw [deliver_get_self h.here, h.source]
    rcases h.phase with hA | hB | hC
    · -- nothing delivered yet: the job runs if the promise is settled
      obtain ⟨hp, hst, hres, hwr⟩ := hA
      cases hs : w.stateOf src with
      | pending =>
        rw [hs] at hget
        rw [react_pending] at hget ⊢
        exact { here := hget, source := h.source, promise := h.promise,
                phase := Or.inl ⟨hp, hst, hres, hwr⟩, origin := h.origin }
      | fulfilled v =>
        have hkeep : (deliver j w).stateOf src = .fulfilled v := by
          rw [stateOf_deliver j (by rw [hs]; intro hh; cases hh), hs]
        rw [hs] at hget
        have hst0 : c0.status = "pending" ∧ c0.resultWrites = 0 := by
          rcases h.origin with ho | ho
          · rw [← ho]; exact ⟨hst, hwr⟩
          · exact ⟨ho.1, ho.2.1⟩
        refine { here := hget, source := ?_, promise := ?_, phase := ?_, origin := ?_ }
        · simp [Cell.react, hp, Cell.onFulfilled, h.source]
        · simp [Cell.react, hp, Cell.onFulfilled, h.promise]
        · rw [hkeep]
          exact Or.inr (Or.inl ⟨v, rfl, by simp [Cell.react, hp, Cell.onFulfilled, hwr]⟩)
        · exact Or.inr ⟨hst0.1, hst0.2, by simp [Cell.react, hp, Cell.onFulfilled]⟩
      | rejected e =>
        have hkeep : (deliver j w).stateOf src = .rejected e := by
          rw [stateOf_deliver j (by rw [hs]; intro hh; cases hh), hs]
        rw [hs] at hget
        have hst0 : c0.status = "pending" ∧ c0.resultWrites = 0 := by
          rcases h.origin with ho | ho
          · rw [← ho]; exact ⟨hst, hwr⟩
          · exact ⟨ho.1, ho.2.1⟩
        refine { here := hget, source := ?_, promise := ?_, phase := ?_, origin := ?_ }
        · simp [Cell.react, hp, Cell.onRejected, h.source]
        · simp [Cell.react, hp, Cell.onRejected, h.promise]
        · rw [hkeep]
          exact Or.inr (Or.inr ⟨e, rfl, by simp [Cell.react, hp, Cell.onRejected, hwr]⟩)
        · exact Or.inr ⟨hst0.1, hst0.2, by simp [Cell.react, hp, Cell.onRejected]⟩
    · obtain ⟨v, hs, hp, hrest⟩ := hB
      have hne : c.promiseState ≠ .pending := by rw [hp]; intro hh; cases hh
      rw [react_of_settled _ hne] at hget ⊢
      exact { here := hget, source := h.source, promise := h.promise,
              phase := phase_mono h.phase (fun hn => stateOf_deliver j hn), origin := h.origin }
    · obtain ⟨e, hs, hp, hrest⟩ := hC
      have hne : c.promiseState ≠ .pending := by rw [hp]; intro hh; cases hh
      rw [react_of_settled _ hne] at hget ⊢
      exact { here := hget, source := h.source, promise := h.promise,
              phase := phase_mono h.phase (fun hn => stateOf_deliver j hn), origin := h.origin }
  · simp only [hjk, if_false]
    exact { here := by rw [deliver_get_ne (Ne.symm hjk)]; exact h.here
            source := h.source, promise := h.promise
            phase := phase_mono h.phase (fun hn => stateOf_deliver j hn), origin := h.origin }

/-- The invariant holds along every sequence of events. -/
theorem tracked_run {k : Nat} {src : PromiseRef} {c0 : Cell} {w : World}
    (h : Tracked k src c0 w) (es : List Event) : Tracked k src c0 (run es w) :=
  run_induction (Tracked k src c0)
    (fun _ i s h => h.elim (fun c hc => ⟨c, tracks_resolveOp i s hc⟩))
    (fun _ j h => h.elim (fun _ hc => ⟨_, tracks_deliver j hc⟩)) es w h

/-- A settled promise keeps its state along every sequence of events. -/
theorem stateOf_run {w : World} {p : PromiseRef} {s : PromiseState}
    (h : w.stateOf p = s) (hs : s ≠ .pending) (es : List Event) :
    (run es w).stateOf p = s :=
  run_induction (fun w => w.stateOf p = s)
    (fun _ i t hw => by
      dsimp only at hw ⊢
      rw [stateOf_resolveOp i t (by rw [hw]; exact hs), hw])
    (fun _ k hw => by
      dsimp only at hw ⊢
      rw [stateOf_deliver k (by rw [hw]; exact hs), hw]) es w h

theorem calls_run (es : List Event) (w : World) : (run es w).calls = w.calls :=
  run_induction (fun v => v.calls = w.calls)
    (fun _ i s h => by dsimp only at h ⊢; rw [resolveOp_calls]; exact h)
    (fun _ k h => by dsimp only at h ⊢; rw [deliver_calls]; exact h) es w rfl

theorem fetchCalls_run (es : List Event) (w : World) :
    (run es w).env.fetchCalls = w.env.fetchCalls :=
  run_induction (fun v => v.env.fetchCalls = w.env.fetchCalls)
    (fun _ i s h => by dsimp only at h ⊢; rw [resolveOp_fetchCalls]; exact h)
    (fun _ k h => by dsimp only at h ⊢; rw [deliver_env]; exact h) es w rfl

theorem length_run (es : List Event) (w : World) :
    (run es w).cells.length = w.cells.length :=
  run_induction (fun v => v.cells.length = w.cells.length)
    (fun _ i s h => by dsimp only at h ⊢; rw [resolveOp_cells]; exact h)
    (fun _ k h => by dsimp only at h ⊢; rw [deliver_length]; exact h) es w rfl

/-! ## Creation -/

theorem createResource_cell (asyncFn : Producer) (w : World) :
    (createResource asyncFn w).2.cell = w.cells.length := rfl

theorem createResource_env (asyncFn : Producer) (w : World) :
    (createResource asyncFn w).1.env = (asyncFn w.env).1 := rfl

theorem createResource_calls (asyncFn : Producer) (w : World) :
    (createResource asyncFn w).1.calls = w.calls ++ [w.cells.length] := rfl

theorem createResource_cells (asyncFn : Producer) (w : World) :
    (createResource asyncFn w).1.cells
      = w.cells ++ [newCell w.cells.length (asyncFn w.env).2] := rfl

theorem createResource_get_new (asyncFn : Producer) (w : World) :
    (createResource asyncFn w).1.cells[w.cells.length]?
      = some (newCell w.cells.length (asyncFn w.env).2) := by
  rw [createResource_cells]; simp

theorem createResource_get_old (asyncFn : Producer) (w : World) {j : Nat}
    (h : j < w.cells.length) :
    (createResource asyncFn w).1.cells[j]? = w.cells[j]? := by
  rw [createResource_cells, List.getElem?_append_left h]

/-- The cell `createResource` creates is tracked from the start. -/
theorem createResource_tracks (asyncFn : Producer) (w : World) :
    Tracks w.cells.length (asyncFn w.env).2 (newCell w.cells.length (asyncFn w.env).2)
      (createResource asyncFn w).1 (newCell w.cells.length (asyncFn w.env).2) :=
  { here := createResource_get_new asyncFn w
    source := rfl
    promise := rfl
    phase := Or.inl ⟨rfl, rfl, rfl, rfl⟩
    origin := Or.inl rfl }

/-- What `read()` does in each phase. -/
theorem read_of_phase {c : Cell} {s : PromiseState} (h : Phase c s) :
    (c.status = "pending" ∧ c.promiseState = .pending ∧ c.read = .threw (.promise c.promise))
    ∨ (c.status = "success" ∧ s = .fulfilled c.result ∧ c.promiseState ≠ .pending ∧
        c.read = .returned c.result)
    ∨ (c.status = "error" ∧ s = .rejected c.result ∧ c.promiseState ≠ .pending ∧
        c.read = .threw (.value c.result)) := by
  rcases h with ⟨hp, hst, _, _⟩ | ⟨v, hs, hp, hst, hres, _⟩ | ⟨e, hs, hp, hst, hres, _⟩
  · exact Or.inl ⟨hst, hp, by simp [Cell.read, hst]⟩
  · have hne : c.promiseState ≠ .pending := by rw [hp]; intro h; cases h
    exact Or.inr (Or.inl ⟨hst, by rw [hs, hres], hne, by simp [Cell.read, hst]⟩)
  · have hne : c.promiseState ≠ .pending := by rw [hp]; intro h; cases h
    exact Or.inr (Or.inr ⟨hst, by rw [hs, hres], hne, by simp [Cell.read, hst]⟩)

/-! ## Consequences of the invariant -/

theorem Tracks.restart {k : Nat} {src : PromiseRef} {c0 c : Cell} {w : World}
    (h : Tracks k src c0 w c) : Tracks k src c w c :=
  { here := h.here, source := h.source, promise := h.promise, phase := h.phase,
    origin := Or.inl rfl }

theorem Tracks.status_ne_pending {k : Nat} {src : PromiseRef} {c0 c : Cell} {w : World}
    (h : Tracks k src c0 w c) (hp : c.promiseState ≠ .pending) : c.status ≠ "pending" := by
  rcases h.phase with ⟨hp', _⟩ | ⟨_, _, _, hst, _⟩ | ⟨_, _, _, hst, _⟩
  · exact absurd hp' hp
  · rw [hst]; decide
  · rw [hst]; decide

theorem Tracks.promiseState_ne_pending {k : Nat} {src : PromiseRef} {c0 c : Cell} {w : World}
    (h : Tracks k src c0 w c) (hst : c.status ≠ "pending") : c.promiseState ≠ .pending := by
  rcases h.phase with ⟨_, hst', _⟩ | ⟨_, _, hp, _⟩ | ⟨_, _, hp, _⟩
  · exact absurd hst' hst
  · rw [hp]; intro hh; cases hh
  · rw [hp]; intro hh; cases hh

theorem Tracks.stateOf_chained {k : Nat} {src : PromiseRef} {c0 c : Cell} {w : World}
    (h : Tracks k src c0 w c) : w.stateOf (.chained k) = c.promiseState := by
  simp [World.stateOf, h.here]

theorem Tracks.read_eq {k : Nat} {src : PromiseRef} {c0 c : Cell} {w : World}
    (h : Tracks k src c0 w c) : read w { cell := k } = some c.read := by
  simp [read, h.here]

/-- Once the job of a cell has run, the cell never changes again. -/
theorem Tracks.frozen {k : Nat} {src : PromiseRef} {c0 c : Cell} {w : World}
    (h : Tracks k src c0 w c) (hst : c.status ≠ "pending") (fs : List Event) :
    Tracks k src c (run fs w) c := by
  obtain ⟨c', hc'⟩ := tracked_run ⟨c, h.restart⟩ fs
  rcases hc'.origin with ho | ho
  · rw [ho] at hc'; exact hc'
  · exact absurd ho.1 hst

/-- The cell of a resource is tracked from its creation on. -/
theorem tracked_after_create (asyncFn : Producer) (w0 : World) (es : List Event) :
    Tracked w0.cells.length (asyncFn w0.env).2 (newCell w0.cells.length (asyncFn w0.env).2)
      (run es (createResource asyncFn w0).1) :=
  tracked_run ⟨_, createResource_tracks asyncFn w0⟩ es

/-! ## Jobs and checkpoints -/

theorem react_settles (c : Cell) {s : PromiseState} (hs : s ≠ .pending) :
    (c.react s).promiseState ≠ .pending := by
  unfold Cell.react
  cases hp : c.promiseState <;> cases s <;> simp_all [Cell.onFulfilled, Cell.onRejected]

/-- The job of a cell whose promise is settled runs when it is delivered. -/
theorem deliver_settles {k : Nat} {src : PromiseRef} {c0 c : Cell} {w : World}
    (h : Tracks k src c0 w c) (hs : w.stateOf src ≠ .pending) :
    Delivered k src c0 (deliver k w) := by
  have ht := tracks_deliver k h
  simp only [if_true] at ht
  exact ⟨_, ht, react_settles c hs⟩

theorem delivered_deliver {k : Nat} {src : PromiseRef} {c0 : Cell} {w : World} (j : Nat)
    (h : Delivered k src c0 w) : Delivered k src c0 (deliver j w) := by
  obtain ⟨c, hc, hp⟩ := h
  have ht := tracks_deliver j hc
  by_cases hjk : j = k
  · simp only [hjk, if_true, react_of_settled _ hp] at ht
    rw [hjk]; exact ⟨c, ht, hp⟩
  · simp only [hjk, if_false] at ht
    exact ⟨c, ht, hp⟩

theorem delivered_foldl {k : Nat} {src : PromiseRef} {c0 : Cell} (l : List Nat) :
    ∀ w : World, Delivered k src c0 w →
      Delivered k src c0 (l.foldl (fun acc j => deliver j acc) w) := by
  induction l with
  | nil => intro w h; exact h
  | cons j l ih => intro w h; exact ih _ (delivered_deliver j h)

theorem delivers_foldl {k : Nat} {src : PromiseRef} {c0 : Cell} (l : List Nat) :
    ∀ w : World, Tracked k src c0 w → w.stateOf src ≠ .pending → k ∈ l →
      Delivered k src c0 (l.foldl (fun acc j => deliver j acc) w) := by
  induction l with
  | nil => intro w _ _ hk; cases hk
  | cons j l ih =>
    intro w ht hs hk
    by_cases hjk : j = k
    · obtain ⟨c, hc⟩ := ht
      rw [hjk]
      exact delivered_foldl l _ (deliver_settles hc hs)
    · have hkl : k ∈ l := by
        rcases List.mem_cons.mp hk with h | h
        · exact absurd h.symm hjk
        · exact h
      obtain ⟨c, hc⟩ := ht
      exact ih (deliver j w) ⟨_, tracks_deliver j hc⟩
        (by rw [stateOf_deliver j hs]; exact hs) hkl

theorem delivered_iterate {k : Nat} {src : PromiseRef} {c0 : Cell} (n : Nat) :
    ∀ w : World, Delivered k src c0 w → Delivered k src c0 (Nat.iterate deliverAll n w) := by
  induction n with
  | zero => intro w h; exact h
  | succ n ih => intro w h; exact ih _ (delivered_foldl _ w h)

/-- A microtask checkpoint runs the job of every cell whose promise is
settled. -/
theorem checkpoint_delivers {k : Nat} {src : PromiseRef} {c0 c : Cell} {w : World}
    (h : Tracks k src c0 w c) (hs : w.stateOf src ≠ .pending) :
    Delivered k src c0 (checkpoint w) := by
  have hk : k < w.cells.length := by
    rcases Nat.lt_or_ge k w.cells.length with hlt | hge
    · exact hlt
    · have := h.here; rw [List.getElem?_eq_none hge] at this; cases this
  unfold checkpoint
  obtain ⟨n, hn⟩ : ∃ n, w.cells.length = n + 1 := ⟨w.cells.length - 1, by omega⟩
  rw [hn]
  show Delivered k src c0 (Nat.iterate deliverAll n (deliverAll w))
  apply delivered_iterate
  exact delivers_foldl _ w ⟨c, h⟩ hs (List.mem_range.mpr hk)

/-! ## Operations -/

theorem resolveOp_get_ne {i j : Nat} (h : i ≠ j) (s : PromiseState) (w : World) :
    (resolveOp i s w).env.operations[j]? = w.env.operations[j]? := by
  unfold resolveOp
  split
  · simp [List.getElem?_set, h]
  · rfl

theorem resolveOp_get_pending {i : Nat} {w : World} (s : PromiseState)
    (h : w.env.operations[i]? = some .pending) :
    (resolveOp i s w).env.operations[i]? = some s := by
  have hi : i < w.env.operations.length := by
    rcases Nat.lt_or_ge i w.env.operations.length with hlt | hge
    · exact hlt
    · rw [List.getElem?_eq_none hge] at h; cases h
  unfold resolveOp
  rw [h]
  simp [List.getElem?_set, hi]

theorem resolveOp_get_settled {i : Nat} {w : World} {t : PromiseState} (s : PromiseState)
    (h : w.env.operations[i]? = some t) (ht : t ≠ .pending) :
    (resolveOp i s w).env.operations[i]? = some t := by
  unfold resolveOp
  rw [h]
  cases t with
  | pending => exact absurd rfl ht
  | fulfilled v => exact h
  | rejected e => exact h

theorem heldByImage_of_mem {env : Env} {img : Img} {op : Nat} {src : String}
    (hm : img ∈ env.images) (ho : img.onload = some (op, src)) :
    env.heldByImage op = true := by
  unfold Env.heldByImage
  rw [List.any_eq_true]
  exact ⟨img, hm, by simp [ho]⟩

/-- An operation whose `resolve` is held by `onload` handlers that all pass
`url` is only ever resolved with `url`. -/
theorem imageInv_run {imgs : List Img} {op : Nat} {url : String} {img0 : Img} {v0 : String}
    (hmem : img0 ∈ imgs) (hon : img0.onload = some (op, v0))
    (hall : ∀ img ∈ imgs, ∀ v, img.onload = some (op, v) → v = url)
    {w : World} (h : ImageInv imgs op url w) (es : List Event) :
    ImageInv imgs op url (run es w) := by
  refine run_induction_owned (ImageInv imgs op url) ?_ ?_ ?_ es w h
  · intro w i s hw hheld
    have hne : i ≠ op := by
      intro hio
      have : w.env.heldByImage op = true :=
        heldByImage_of_mem (by rw [hw.1]; exact hmem) hon
      rw [hio, this] at hheld; cases hheld
    exact ⟨by rw [resolveOp_images]; exact hw.1, by rw [resolveOp_get_ne hne]; exact hw.2⟩
  · intro w i img op' src hw himg ho
    refine ⟨by rw [resolveOp_images]; exact hw.1, ?_⟩
    by_cases hop : op' = op
    · have hin : img ∈ imgs := by
        rw [← hw.1]; exact List.getElem?_mem himg
      have hsrc : src = url := hall img hin src (by rw [ho, hop])
      rw [hop, hsrc]
      rcases hw.2 with hp | hf
      · exact Or.inr (resolveOp_get_pending _ hp)
      · exact Or.inr (resolveOp_get_settled _ hf (by intro hh; cases hh))
    · rw [resolveOp_get_ne hop]; exact hw.2
  · intro w k hw
    exact ⟨by rw [deliver_env]; exact hw.1, by rw [deliver_env]; exact hw.2⟩

/-! ## Reads of a delivered cell -/

theorem read_fulfilled_of_tracks {k : Nat} {src : PromiseRef} {c0 c : Cell} {w : World}
    {v : JSValue} (hc : Tracks k src c0 w c) (hres : w.stateOf src = .fulfilled v)
    (hran : w.stateOf (.chained k) ≠ .pending) (fs : List Event) :
    read (run fs w) { cell := k } = some (.returned v) := by
  have hp : c.promiseState ≠ .pending := by
    rw [← hc.stateOf_chained]; exact hran
  have hst := hc.status_ne_pending hp
  rw [(hc.frozen hst fs).read_eq]
  rcases read_of_phase hc.phase with h | h | h
  · exact absurd h.1 hst
  · have hv : PromiseState.fulfilled v = .fulfilled c.result := by rw [← hres]; exact h.2.1
    injection hv with hv
    rw [h.2.2.2, hv]
  · have hv : PromiseState.fulfilled v = .rejected c.result := by rw [← hres]; exact h.2.1
    cases hv

theorem read_rejected_of_tracks {k : Nat} {src : PromiseRef} {c0 c : Cell} {w : World}
    {e : JSValue} (hc : Tracks k src c0 w c) (hrej : w.stateOf src = .rejected e)
    (hran : w.stateOf (.chained k) ≠ .pending) (fs : List Event) :
    read (run fs w) { cell := k } = some (.threw (.value e)) := by
  have hp : c.promiseState ≠ .pending := by
    rw [← hc.stateOf_chained]; exact hran
  have hst := hc.status_ne_pending hp
  rw [(hc.frozen hst fs).read_eq]
  rcases read_of_phase hc.phase with h | h | h
  · exact absurd h.1 hst
  · have hv : PromiseState.rejected e = .fulfilled c.result := by rw [← hrej]; exact h.2.1
    cases hv
  · have hv : PromiseState.rejected e = .rejected c.result := by rw [← hrej]; exact h.2.1
    injection hv with hv
    rw [h.2.2.2, hv]

/-! ## Pairs -/

theorem createPokemonResource_cells (C : Collaborators) (pokemonName : String) (delay : Nat)
    (w0 : World) :
    (createPokemonResource C pokemonName delay w0).1.cells
      = w0.cells ++ [newCell w0.cells.length (.operation w0.env.operations.length),
          newCell (w0.cells.length + 1) (.operation (w0.env.operations.length + 1))] := by
  simp [createPokemonResource, createResource, fetchPokemon, preloadImage, newCell]

theorem createPokemonResource_operations (C : Collaborators) (pokemonName : String)
    (delay : Nat) (w0 : World) :
    (createPokemonResource C pokemonName delay w0).1.env.operations
      = w0.env.operations ++ [C.fetchState pokemonName delay, .pending] := by
  simp [createPokemonResource, createResource, fetchPokemon, preloadImage]

theorem createPokemonResource_images (C : Collaborators) (pokemonName : String)
    (delay : Nat) (w0 : World) :
    (createPokemonResource C pokemonName delay w0).1.env.images
      = w0.env.images ++
          [{ src := C.getImageUrlForPokemon pokemonName,
             onload := some (w0.env.operations.length + 1,
               C.getImageUrlForPokemon pokemonName) }] := by
  simp [createPokemonResource, createResource, fetchPokemon, preloadImage]

theorem createPokemonResource_tracks_data (C : Collaborators) (pokemonName : String)
    (delay : Nat) (w0 : World) :
    Tracks w0.cells.length (.operation w0.env.operations.length)
      (newCell w0.cells.length (.operation w0.env.operations.length))
      (createPokemonResource C pokemonName delay w0).1
      (newCell w0.cells.length (.operation w0.env.operations.length)) :=
  { here := by
      rw [createPokemonResource_cells, List.getElem?_append_right (le_refl _)]; simp
    source := rfl
    promise := rfl
    phase := Or.inl ⟨rfl, rfl, rfl, rfl⟩
    origin := Or.inl rfl }

theorem createPokemonResource_tracks_image (C : Collaborators) (pokemonName : String)
    (delay : Nat) (w0 : World) :
    Tracks (w0.cells.length + 1) (.operation (w0.env.operations.length + 1))
      (newCell (w0.cells.length + 1) (.operation (w0.env.operations.length + 1)))
      (createPokemonResource C pokemonName delay w0).1
      (newCell (w0.cells.length + 1) (.operation (w0.env.operations.length + 1))) :=
  { here := by
      rw [createPokemonResource_cells, List.getElem?_append_right (Nat.le_succ _)]; simp
    source := rfl
    promise := rfl
    phase := Or.inl ⟨rfl, rfl, rfl, rfl⟩
    origin := Or.inl rfl }

/-- After the load of the image of a pair and the checkpoint that ends that
task, the image resource holds the URL. -/
theorem image_read_after_load (C : Collaborators) (pokemonName : String) (delay : Nat)
    (w0 : World) (hwf : w0.env.WellFormed) (es fs : List Event) :
    read (run fs (imageLoad w0.env.images.length
        (run es (createPokemonResource C pokemonName delay w0).1)))
      { cell := w0.cells.length + 1 }
      = some (.returned (.str (C.getImageUrlForPokemon pokemonName))) := by
  let url := C.getImageUrlForPokemon pokemonName
  let op := w0.env.operations.length + 1
  let img0 : Img := { src := url, onload := some (op, url) }
  let imgs := w0.env.images ++ [img0]
  have hmem : img0 ∈ imgs := by simp [imgs]
  have hall : ∀ img ∈ imgs, ∀ v, img.onload = some (op, v) → v = url := by
    intro img hin v hv
    rcases List.mem_append.mp hin with hold | hnew
    · have := hwf img hold op v hv
      simp only [op] at this
      omega
    · have himg : img = img0 := by simpa using hnew
      rw [himg] at hv
      simp only [img0] at hv
      injection hv with hv
      injection hv with _ hv
      exact hv.symm
  have hinv0 : ImageInv imgs op url (createPokemonResource C pokemonName delay w0).1 := by
    refine ⟨createPokemonResource_images C pokemonName delay w0, Or.inl ?_⟩
    rw [createPokemonResource_operations, List.getElem?_append_right (Nat.le_succ _)]
    simp
  have hinv := imageInv_run hmem rfl hall hinv0 es
  obtain ⟨c, hc⟩ := tracked_run ⟨_, createPokemonResource_tracks_image C pokemonName delay w0⟩ es
  have himg : (run es (createPokemonResource C pokemonName delay w0).1).env.images[
      w0.env.images.length]? = some img0 := by
    rw [hinv.1]; simp [imgs]
  have hload : imageLoad w0.env.images.length
      (run es (createPokemonResource C pokemonName delay w0).1)
      = checkpoint (resolveOp op (.fulfilled (.str url))
          (run es (createPokemonResource C pokemonName delay w0).1)) := by
    unfold imageLoad
    rw [himg]
  have hop : (resolveOp op (.fulfilled (.str url))
      (run es (createPokemonResource C pokemonName delay w0).1)).stateOf (.operation op)
      = .fulfilled (.str url) := by
    rcases hinv.2 with hp | hf
    · simp [World.stateOf, resolveOp_get_pending _ hp]
    · simp [World.stateOf, resolveOp_get_settled _ hf]
  have hne : PromiseState.fulfilled (.str url) ≠ .pending := by intro hh; cases hh
  have hc2 := tracks_resolveOp op (.fulfilled (.str url)) hc
  obtain ⟨c3, hc3, hp3⟩ := checkpoint_delivers hc2 (by rw [hop]; exact hne)
  have hop3 : (checkpoint (resolveOp op (.fulfilled (.str url))
      (run es (createPokemonResource C pokemonName delay w0).1))).stateOf (.operation op)
      = .fulfilled (.str url) := stateOf_run hop hne [Event.checkpoint]
  rw [hload]
  exact read_fulfilled_of_tracks hc3 hop3 (by rw [hc3.stateOf_chained]; exact hp3) fs

/-! ## Reads after a successful resolution (C1) -/

/-- Claim C1, counterexample: the producer `() => Promise.resolve(5)` hands back
an operation that is already resolved with 5 (operation 0 of the new world),
and a `read()` made right after `createResource` returned, so after the
resolution, does not return 5: the success continuation has not run yet,
`status` is still `'pending'` and the read raises the pending promise. -/
theorem read_after_resolution_still_pending :
    (Producer.fresh (.fulfilled (.num 5)) World.empty.env).2 = .operation 0
    ∧ (createResource (Producer.fresh (.fulfilled (.num 5))) World.empty).1.stateOf
        (.operation 0) = .fulfilled (.num 5)
    ∧ read (createResource (Producer.fresh (.fulfilled (.num 5))) World.empty).1
        (createResource (Producer.fresh (.fulfilled (.num 5))) World.empty).2
      = some (.threw (.promise (.chained 0)))
    ∧ read (createResource (Producer.fresh (.fulfilled (.num 5))) World.empty).1
        (createResource (Producer.fresh (.fulfilled (.num 5))) World.empty).2
      ≠ some (.returned (.num 5)) := by
  decide

/-- Claim C1, amended: for every producer whose operation resolves with a value
`v`, every `read()` made once the success continuation registered by
`createResource` has run returns `v`: the first such read and every later one,
whatever events and reads come in between, for every `v` (also `undefined`),
and none of them raises. -/
theorem read_returns_value_once_delivered (asyncFn : Producer) (w0 : World)
    (es : List Event) (v : JSValue)
    (hres : (run es (createResource asyncFn w0).1).stateOf (asyncFn w0.env).2 = .fulfilled v)
    (hran : continuationRan (run es (createResource asyncFn w0).1) (createResource asyncFn w0).2)
    (fs : List Event) :
    read (run fs (run es (createResource asyncFn w0).1)) (createResource asyncFn w0).2
      = some (.returned v) := by
  obtain ⟨c, hc⟩ := tracked_after_create asyncFn w0 es
  have hp : c.promiseState ≠ .pending := by
    rw [← hc.stateOf_chained]; exact hran
  have hst := hc.status_ne_pending hp
  have hf := hc.frozen hst fs
  have hread : read (run fs (run es (createResource asyncFn w0).1))
      (createResource asyncFn w0).2 = some c.read := hf.read_eq
  rcases read_of_phase hc.phase with h | h | h
  · exact absurd h.1 hst
  · have hv : PromiseState.fulfilled v = .fulfilled c.result := by rw [← hres]; exact h.2.1
    injection hv with hv
    rw [hread, h.2.2.2, hv]
  · have hv : PromiseState.fulfilled v = .rejected c.result := by rw [← hres]; exact h.2.1
    cases hv

/-- Claim C1, witness: `() => Promise.resolve(undefined)`, the job has run. -/
theorem read_returns_value_once_delivered_witness :
    ((run [Event.deliver 0] (createResource (Producer.fresh (.fulfilled .undefined))
        World.empty).1).stateOf (Producer.fresh (.fulfilled .undefined) World.empty.env).2
      = .fulfilled .undefined
    ∧ continuationRan (run [Event.deliver 0]
        (createResource (Producer.fresh (.fulfilled .undefined)) World.empty).1)
        (createResource (Producer.fresh (.fulfilled .undefined)) World.empty).2)
    ∧ read (run [Event.read { cell := 0 }, Event.checkpoint] (run [Event.deliver 0]
        (createResource (Producer.fresh (.fulfilled .undefined)) World.empty).1))
        (createResource (Producer.fresh (.fulfilled .undefined)) World.empty).2
      = some (.returned .undefined) :=
  ⟨⟨by decide, by decide⟩,
    read_returns_value_once_delivered (Producer.fresh (.fulfilled .undefined)) World.empty
      [Event.deliver 0] .undefined (by decide) (by decide)
      [Event.read { cell := 0 }, Event.checkpoint]⟩

/-! ## Reads after a rejection (C2) -/

/-- Claim C2, counterexample: the producer `() => Promise.reject(e)` hands back
an operation that is already rejected, and a `read()` made right after
`createResource` returned, so after the rejection, raises the pending promise
and not `e`: the failure continuation has not run yet. -/
theorem read_after_rejection_still_pending :
    (Producer.fresh (.rejected (.error "boom")) World.empty.env).2 = .operation 0
    ∧ (createResource (Producer.fresh (.rejected (.error "boom"))) World.empty).1.stateOf
        (.operation 0) = .rejected (.error "boom")
    ∧ read (createResource (Producer.fresh (.rejected (.error "boom"))) World.empty).1
        (createResource (Producer.fresh (.rejected (.error "boom"))) World.empty).2
      = some (.threw (.promise (.chained 0)))
    ∧ read (createResource (Producer.fresh (.rejected (.error "boom"))) World.empty).1
        (createResource (Producer.fresh (.rejected (.error "boom"))) World.empty).2
      ≠ some (.threw (.value (.error "boom"))) := by
  decide

/-- Claim C2, amended: for every producer whose operation rejects with an error
`e`, every `read()` made once the failure continuation registered by
`createResource` has run raises exactly `e`, the stored rejection value (the
`throw result` of line 38, not the pending promise and not a new error): the
first such read and every later one; none returns a value. -/
theorem read_raises_error_once_delivered (asyncFn : Producer) (w0 : World)
    (es : List Event) (e : JSValue)
    (hrej : (run es (createResource asyncFn w0).1).stateOf (asyncFn w0.env).2 = .rejected e)
    (hran : continuationRan (run es (createResource asyncFn w0).1) (createResource asyncFn w0).2)
    (fs : List Event) :
    read (run fs (run es (createResource asyncFn w0).1)) (createResource asyncFn w0).2
      = some (.threw (.value e)) := by
  obtain ⟨c, hc⟩ := tracked_after_create asyncFn w0 es
  have hp : c.promiseState ≠ .pending := by
    rw [← hc.stateOf_chained]; exact hran
  have hst := hc.status_ne_pending hp
  have hf := hc.frozen hst fs
  have hread : read (run fs (run es (createResource asyncFn w0).1))
      (createResource asyncFn w0).2 = some c.read := hf.read_eq
  rcases read_of_phase hc.phase with h | h | h
  · exact absurd h.1 hst
  · have hv : PromiseState.rejected e = .fulfilled c.result := by rw [← hrej]; exact h.2.1
    cases hv
  · have hv : PromiseState.rejected e = .rejected c.result := by rw [← hrej]; exact h.2.1
    injection hv with hv
    rw [hread, h.2.2.2, hv]

/-- Claim C2, witness: an operation rejected later by the environment, the job
has run. -/
theorem read_raises_error_once_delivered_witness :
    ((run [Event.settle 0 (.rejected (.error "boom")), Event.checkpoint]
        (createResource (Producer.fresh .pending) World.empty).1).stateOf
        (Producer.fresh .pending World.empty.env).2 = .rejected (.error "boom")
    ∧ continuationRan (run [Event.settle 0 (.rejected (.error "boom")), Event.checkpoint]
        (createResource (Producer.fresh .pending) World.empty).1)
        (createResource (Producer.fresh .pending) World.empty).2)
    ∧ read (run [Event.read { cell := 0 }, Event.settle 0 (.fulfilled (.num 1))]
        (run [Event.settle 0 (.rejected (.error "boom")), Event.checkpoint]
          (createResource (Producer.fresh .pending) World.empty).1))
        (createResource (Producer.fresh .pending) World.empty).2
      = some (.threw (.value (.error "boom"))) :=
  ⟨⟨by decide, by decide⟩,
    read_raises_error_once_delivered (Producer.fresh .pending) World.empty
      [Event.settle 0 (.rejected (.error "boom")), Event.checkpoint] (.error "boom")
      (by decide) (by decide) [Event.read { cell := 0 }, Event.settle 0 (.fulfilled (.num 1))]⟩

/-! ## Premature reads (C3) -/

/-- Claim C3: any two calls of `read()` made while the resource is pending, the
second after any further events, both raise, and both raise the same promise
object, the one bound to `promise` at creation; neither returns a value. -/
theorem premature_reads_raise_same_promise (asyncFn : Producer) (w0 : World)
    (es fs : List Event)
    (h1 : isPending (run es (createResource asyncFn w0).1) (createResource asyncFn w0).2)
    (h2 : isPending (run fs (run es (createResource asyncFn w0).1))
      (createResource asyncFn w0).2) :
    ((createResource asyncFn w0).1.cells[(createResource asyncFn w0).2.cell]?).map Cell.promise
      = some (.chained (createResource asyncFn w0).2.cell)
    ∧ read (run es (createResource asyncFn w0).1) (createResource asyncFn w0).2
      = some (.threw (.promise (.chained (createResource asyncFn w0).2.cell)))
    ∧ read (run fs (run es (createResource asyncFn w0).1)) (createResource asyncFn w0).2
      = some (.threw (.promise (.chained (createResource asyncFn w0).2.cell))) := by
  obtain ⟨c, hc⟩ := tracked_after_create asyncFn w0 es
  obtain ⟨d, hd⟩ := tracked_run ⟨c, hc⟩ fs
  have hcs : c.status = "pending" := by
    have h := h1
    simp only [isPending, createResource_cell, hc.here, Option.map_some'] at h
    exact Option.some.inj h
  have hds : d.status = "pending" := by
    have h := h2
    simp only [isPending, createResource_cell, hd.here, Option.map_some'] at h
    exact Option.some.inj h
  refine ⟨?_, ?_, ?_⟩
  · simp only [createResource_cell, createResource_get_new, Option.map_some']; rfl
  · show read _ { cell := w0.cells.length } = _
    rw [hc.read_eq]
    simp [Cell.read, hcs, hc.promise, createResource_cell]
  · show read _ { cell := w0.cells.length } = _
    rw [hd.read_eq]
    simp [Cell.read, hds, hd.promise, createResource_cell]

/-- Claim C3, witness: two premature reads, with an unrelated settlement in
between. -/
theorem premature_reads_raise_same_promise_witness :
    (isPending (run [Event.read { cell := 0 }]
        (createResource (Producer.fresh .pending) World.empty).1)
        (createResource (Producer.fresh .pending) World.empty).2
    ∧ isPending (run [Event.settle 7 (.fulfilled (.num 1)), Event.checkpoint]
        (run [Event.read { cell := 0 }]
          (createResource (Producer.fresh .pending) World.empty).1))
        (createResource (Producer.fresh .pending) World.empty).2)
    ∧ read (run [Event.settle 7 (.fulfilled (.num 1)), Event.checkpoint]
        (run [Event.read { cell := 0 }]
          (createResource (Producer.fresh .pending) World.empty).1))
        (createResource (Producer.fresh .pending) World.empty).2
      = some (.threw (.promise (.chained 0))) :=
  ⟨⟨by decide, by decide⟩,
    (premature_reads_raise_same_promise (Producer.fresh .pending) World.empty
      [Event.read { cell := 0 }] [Event.settle 7 (.fulfilled (.num 1)), Event.checkpoint]
      (by decide) (by decide)).2.2⟩

/-! ## Producer invocations (C4) -/

/-- Claim C4: `createResource` invokes the producer exactly once, before it
returns: the environment it leaves is the one that single call produced and the
invocation log has grown by exactly one entry, for the new resource. No event
after that, whether a settlement, a queued job or a `read()`, invokes it again:
after every sequence of events the log is the same, and a `read()` leaves the
whole world as it was. -/
theorem producer_invoked_exactly_once (asyncFn : Producer) (w0 : World) (es : List Event)
    (r : Resource) :
    (createResource asyncFn w0).1.env = (asyncFn w0.env).1
    ∧ (createResource asyncFn w0).1.calls = w0.calls ++ [(createResource asyncFn w0).2.cell]
    ∧ (run es (createResource asyncFn w0).1).calls
        = w0.calls ++ [(createResource asyncFn w0).2.cell]
    ∧ ((run es (createResource asyncFn w0).1).calls.count (createResource asyncFn w0).2.cell
        = w0.calls.count (createResource asyncFn w0).2.cell + 1)
    ∧ step (run es (createResource asyncFn w0).1) (Event.read r)
        = run es (createResource asyncFn w0).1 := by
  refine ⟨rfl, rfl, ?_, ?_, rfl⟩
  · rw [calls_run]; rfl
  · rw [calls_run, createResource_calls, createResource_cell]
    simp [List.count_append]

/-! ## Status and result (C5) -/

/-- Claim C5: in every state reachable from `createResource` by settlements,
queued jobs and reads, `status` is `'pending'`, `'success'` or `'error'`; it
starts as `'pending'` with `result` unset; every event either leaves the cell
as it is or finds it pending and moves `status` to `'success'` or `'error'`
while assigning `result` for the first and only time; so `result` is unset
while pending, has been assigned exactly once afterwards, and a resource that
is no longer pending keeps its status and result forever. -/
theorem status_result_lifecycle (asyncFn : Producer) (w0 : World) (es : List Event)
    (e : Event) (fs : List Event) :
    ((createResource asyncFn w0).1.cells[(createResource asyncFn w0).2.cell]?).map
        (fun c => (c.status, c.result, c.resultWrites)) = some ("pending", .undefined, 0)
    ∧ ∃ c c', (run es (createResource asyncFn w0).1).cells[(createResource asyncFn w0).2.cell]?
          = some c
      ∧ (step (run es (createResource asyncFn w0).1) e).cells[(createResource asyncFn w0).2.cell]?
          = some c'
      ∧ (c.status = "pending" ∨ c.status = "success" ∨ c.status = "error")
      ∧ (c.status = "pending" → c.result = .undefined ∧ c.resultWrites = 0)
      ∧ (c.status ≠ "pending" → c.resultWrites = 1)
      ∧ (c' = c ∨ (c.status = "pending" ∧ (c'.status = "success" ∨ c'.status = "error")
            ∧ c'.resultWrites = c.resultWrites + 1))
      ∧ (c.status ≠ "pending" → c' = c
            ∧ (run fs (run es (createResource asyncFn w0).1)).cells[
                (createResource asyncFn w0).2.cell]? = some c) := by
  refine ⟨by simp only [createResource_cell, createResource_get_new, Option.map_some']; rfl, ?_⟩
  obtain ⟨c, hc⟩ := tracked_after_create asyncFn w0 es
  obtain ⟨c', hc'⟩ := tracked_run ⟨c, hc.restart⟩ [e]
  refine ⟨c, c', hc.here, hc'.here, ?_, ?_, ?_, ?_, ?_⟩
  · rcases hc.phase with h | ⟨_, _, _, h, _⟩ | ⟨_, _, _, h, _⟩
    · exact Or.inl h.2.1
    · exact Or.inr (Or.inl h)
    · exact Or.inr (Or.inr h)
  · intro hst
    rcases hc.phase with h | ⟨_, _, _, h, _⟩ | ⟨_, _, _, h, _⟩
    · exact ⟨h.2.2.1, h.2.2.2⟩
    · rw [h] at hst; exact absurd hst (by decide)
    · rw [h] at hst; exact absurd hst (by decide)
  · intro hst
    rcases hc.phase with h | ⟨_, _, _, _, _, h⟩ | ⟨_, _, _, _, _, h⟩
    · exact absurd h.2.1 hst
    · exact h
    · exact h
  · rcases hc'.origin with ho | ⟨hp, hw, hne⟩
    · exact Or.inl ho
    · refine Or.inr ⟨hp, ?_, ?_⟩
      · rcases hc'.phase with h | ⟨_, _, _, h, _⟩ | ⟨_, _, _, h, _⟩
        · exact absurd h.2.1 hne
        · exact Or.inl h
        · exact Or.inr h
      · rcases hc'.phase with h | ⟨_, _, _, _, _, h⟩ | ⟨_, _, _, _, _, h⟩
        · exact absurd h.2.1 hne
        · rw [h, hw]
        · rw [h, hw]
  · intro hst
    refine ⟨?_, (hc.frozen hst fs).here⟩
    rcases hc'.origin with ho | ⟨hp, _⟩
    · exact ho
    · exact absurd hp hst

/-! ## The promise a premature read raises (C8) -/

/-- Claim C8: the promise a premature `read()` raises is the one `then`
returned. Whatever the outcome of the producer (resolve or reject), the queued
job that runs the continuation settles that promise; and in every reachable
state in which that promise is settled, `status` has left `'pending'`, so every
`read()` made once it has settled, now or after any further events, does not
raise it again: it returns the stored result or raises the stored error. -/
theorem signalled_promise_settles_after_status (asyncFn : Producer) (w0 : World)
    (es : List Event) :
    ((run es (createResource asyncFn w0).1).stateOf (asyncFn w0.env).2 ≠ .pending →
      (deliver (createResource asyncFn w0).2.cell (run es (createResource asyncFn w0).1)).stateOf
        (.chained (createResource asyncFn w0).2.cell) ≠ .pending)
    ∧ ((run es (createResource asyncFn w0).1).stateOf
        (.chained (createResource asyncFn w0).2.cell) ≠ .pending →
      ∀ fs : List Event,
      ∃ c, (run fs (run es (createResource asyncFn w0).1)).cells[
            (createResource asyncFn w0).2.cell]? = some c
        ∧ c.promise = .chained (createResource asyncFn w0).2.cell
        ∧ c.status ≠ "pending"
        ∧ read (run fs (run es (createResource asyncFn w0).1)) (createResource asyncFn w0).2
            ≠ some (.threw (.promise c.promise))
        ∧ ((c.status = "success"
            ∧ read (run fs (run es (createResource asyncFn w0).1)) (createResource asyncFn w0).2
              = some (.returned c.result))
          ∨ (c.status = "error"
            ∧ read (run fs (run es (createResource asyncFn w0).1)) (createResource asyncFn w0).2
              = some (.threw (.value c.result))))) := by
  obtain ⟨c, hc⟩ := tracked_after_create asyncFn w0 es
  constructor
  · intro hs
    obtain ⟨c', hc', hp'⟩ := deliver_settles hc hs
    show (deliver w0.cells.length _).stateOf (.chained w0.cells.length) ≠ .pending
    rw [hc'.stateOf_chained]; exact hp'
  · intro hset fs
    have hp : c.promiseState ≠ .pending := by
      rw [← hc.stateOf_chained]; exact hset
    have hst := hc.status_ne_pending hp
    have hf := hc.frozen hst fs
    have hread : read (run fs (run es (createResource asyncFn w0).1))
        (createResource asyncFn w0).2 = some c.read := hf.read_eq
    refine ⟨c, hf.here, hc.promise, hst, ?_, ?_⟩
    · rw [hread]
      rcases read_of_phase hc.phase with h | h | h
      · exact absurd h.1 hst
      · rw [h.2.2.2]; intro hh; cases hh
      · rw [h.2.2.2]; intro hh; injection hh with hh; injection hh with hh; cases hh
    · rw [hread]
      rcases read_of_phase hc.phase with h | h | h
      · exact absurd h.1 hst
      · exact Or.inl ⟨h.1, by rw [h.2.2.2]⟩
      · exact Or.inr ⟨h.1, by rw [h.2.2.2]⟩

/-- Claim C8, witness: a producer that rejects; the premature read raises the
chained promise, the job settles it, and the retried read raises the stored
error instead of suspending again. -/
theorem signalled_promise_settles_after_status_witness :
    read (createResource (Producer.fresh (.rejected (.error "boom"))) World.empty).1
        { cell := 0 } = some (.threw (.promise (.chained 0)))
    ∧ ((createResource (Producer.fresh (.rejected (.error "boom"))) World.empty).1.stateOf
          (.operation 0) ≠ .pending
      ∧ (deliver 0 (createResource (Producer.fresh (.rejected (.error "boom")))
          World.empty).1).stateOf (.chained 0) ≠ .pending)
    ∧ ((run [Event.deliver 0] (createResource (Producer.fresh (.rejected (.error "boom")))
          World.empty).1).stateOf (.chained 0) ≠ .pending
      ∧ ∃ c, (run [Event.read { cell := 0 }] (run [Event.deliver 0]
            (createResource (Producer.fresh (.rejected (.error "boom")))
              World.empty).1)).cells[0]? = some c
          ∧ c.status ≠ "pending") :=
  ⟨by decide,
    ⟨by decide,
      (signalled_promise_settles_after_status (Producer.fresh (.rejected (.error "boom")))
        World.empty []).1 (by decide)⟩,
    ⟨by decide,
      ((signalled_promise_settles_after_status (Producer.fresh (.rejected (.error "boom")))
        World.empty [Event.deliver 0]).2 (by decide) [Event.read { cell := 0 }]).imp
        (fun _ h => ⟨h.1, h.2.2.1⟩)⟩⟩

/-! ## The unreachable branch (C9) -/

/-- Claim C9: in every state reachable from `createResource` by settlements,
queued jobs and reads, `read()` takes one of its first three branches: it
raises the pending promise, raises the stored error or returns the stored
result, and never reaches `throw new Error('This should be impossible')`. -/
theorem impossible_branch_unreachable (asyncFn : Producer) (w0 : World) (es : List Event) :
    ∃ c, (run es (createResource asyncFn w0).1).cells[(createResource asyncFn w0).2.cell]?
          = some c
      ∧ read (run es (createResource asyncFn w0).1) (createResource asyncFn w0).2 = some c.read
      ∧ c.read ≠ .threw (.newError "This should be impossible")
      ∧ ((c.status = "pending" ∧ c.read = .threw (.promise c.promise))
        ∨ (c.status = "error" ∧ c.read = .threw (.value c.result))
        ∨ (c.status = "success" ∧ c.read = .returned c.result)) := by
  obtain ⟨c, hc⟩ := tracked_after_create asyncFn w0 es
  refine ⟨c, hc.here, hc.read_eq, ?_, ?_⟩
  · rcases read_of_phase hc.phase with h | h | h
    · rw [h.2.2]; intro hh; injection hh with hh; cases hh
    · rw [h.2.2.2]; intro hh; cases hh
    · rw [h.2.2.2]; intro hh; injection hh with hh; cases hh
  · rcases read_of_phase hc.phase with h | h | h
    · exact Or.inl ⟨h.1, h.2.2⟩
    · exact Or.inr (Or.inr ⟨h.1, h.2.2.2⟩)
    · exact Or.inr (Or.inl ⟨h.1, h.2.2.2⟩)

/-! ## Independence of resources (C6) -/

/-- Claim C6: for two distinct resources, the settlement of one, by success or
by rejection (the run of its queued job), leaves the cell of the other as it
is, so the other's `read()` has the same outcome right before and right after;
a settlement of an operation by the environment changes no cell at all; and a
resource created later is distinct from every existing one and its creation
leaves their reads unchanged. -/
theorem settlement_leaves_other_resources (w : World) (a b : Resource)
    (hab : a.cell ≠ b.cell) :
    (deliver a.cell w).cells[b.cell]? = w.cells[b.cell]?
    ∧ read (deliver a.cell w) b = read w b
    ∧ (∀ (i : Nat) (s : PromiseState), read (settle i s w) b = read w b)
    ∧ (∀ asyncFn : Producer, b.cell < w.cells.length →
        (createResource asyncFn w).2.cell ≠ b.cell
        ∧ read (createResource asyncFn w).1 b = read w b) := by
  refine ⟨deliver_get_ne (Ne.symm hab) w, ?_, ?_, ?_⟩
  · simp [read, deliver_get_ne (Ne.symm hab) w]
  · intro i s
    unfold settle
    split
    · rfl
    · simp [read, resolveOp_cells]
  · intro asyncFn hb
    refine ⟨?_, ?_⟩
    · rw [createResource_cell]; omega
    · simp [read, createResource_get_old asyncFn w hb]

/-- Claim C6, witness: after a click the fetch of the first item is rejected
and its continuation runs; the read of the first item raises that error, the
reads of its own image and of the second item are what they were. -/
theorem settlement_leaves_other_resources_witness :
    ((0 : Nat) ≠ 2
    ∧ read (deliver 0 (handleGoClick failingFetch World.empty).1) { cell := 0 }
        = some (.threw (.value (.error "No pokemon found")))
    ∧ read (handleGoClick failingFetch World.empty).1 { cell := 2 }
        = some (.threw (.promise (.chained 2))))
    ∧ read (deliver 0 (handleGoClick failingFetch World.empty).1) { cell := 2 }
        = read (handleGoClick failingFetch World.empty).1 { cell := 2 } :=
  ⟨⟨by decide, by decide, by decide⟩,
    (settlement_leaves_other_resources (handleGoClick failingFetch World.empty).1
      { cell := 0 } { cell := 2 } (by decide)).2.1⟩

/-! ## The pair factory (C7) -/

/-- Claim C7, counterexample: with a fetch collaborator that hands back an
operation already resolved with a record, `data.read()` made right after
`createPokemonResource` returned, so after that fetch resolved, does not return
the record: the success continuation has not run yet and the read raises the
pending promise. -/
theorem data_read_after_fetch_still_pending :
    ((createPokemonResource cachedFetch "pikachu" 400 World.empty).1.cells[
        (createPokemonResource cachedFetch "pikachu" 400 World.empty).2.data.cell]?).map
        Cell.source = some (.operation 0)
    ∧ (createPokemonResource cachedFetch "pikachu" 400 World.empty).1.stateOf (.operation 0)
        = .fulfilled (.record pikachu)
    ∧ read (createPokemonResource cachedFetch "pikachu" 400 World.empty).1
        (createPokemonResource cachedFetch "pikachu" 400 World.empty).2.data
        = some (.threw (.promise (.chained 0)))
    ∧ read (createPokemonResource cachedFetch "pikachu" 400 World.empty).1
        (createPokemonResource cachedFetch "pikachu" 400 World.empty).2.data
        ≠ some (.returned (.record pikachu)) := by
  decide

/-- Claim C7, amended: `createPokemonResource(name, delay)` returns a pair of
two separate resources, both producers started before it returns; `data` wraps
exactly one call of the fetch collaborator with `(name, delay)`, the name
unchanged, and `data.read()` returns what that fetch resolved with once the
success continuation registered on it has run; `image` wraps the preload of an
image whose source is the URL derived from the same name, and `image.read()`
after the image reports loaded returns exactly that URL. -/
theorem createPokemonResource_pair (C : Collaborators) (pokemonName : String) (delay : Nat)
    (w0 : World) (hwf : w0.env.WellFormed) (es fs : List Event) (v : JSValue) :
    (createPokemonResource C pokemonName delay w0).2.data.cell = w0.cells.length
    ∧ (createPokemonResource C pokemonName delay w0).2.image.cell = w0.cells.length + 1
    ∧ (createPokemonResource C pokemonName delay w0).1.calls
        = w0.calls ++ [(createPokemonResource C pokemonName delay w0).2.data.cell,
            (createPokemonResource C pokemonName delay w0).2.image.cell]
    ∧ (run es (createPokemonResource C pokemonName delay w0).1).env.fetchCalls
        = w0.env.fetchCalls ++ [(pokemonName, delay)]
    ∧ ((createPokemonResource C pokemonName delay w0).1.cells[
          (createPokemonResource C pokemonName delay w0).2.data.cell]?).map Cell.source
        = some (.operation w0.env.operations.length)
    ∧ (createPokemonResource C pokemonName delay w0).1.stateOf
          (.operation w0.env.operations.length) = C.fetchState pokemonName delay
    ∧ ((createPokemonResource C pokemonName delay w0).1.cells[
          (createPokemonResource C pokemonName delay w0).2.image.cell]?).map Cell.source
        = some (.operation (w0.env.operations.length + 1))
    ∧ (createPokemonResource C pokemonName delay w0).1.env.images
        = w0.env.images ++
            [{ src := C.getImageUrlForPokemon pokemonName,
               onload := some (w0.env.operations.length + 1,
                 C.getImageUrlForPokemon pokemonName) }]
    ∧ ((run es (createPokemonResource C pokemonName delay w0).1).stateOf
          (.operation w0.env.operations.length) = .fulfilled v →
        continuationRan (run es (createPokemonResource C pokemonName delay w0).1)
          (createPokemonResource C pokemonName delay w0).2.data →
        read (run fs (run es (createPokemonResource C pokemonName delay w0).1))
          (createPokemonResource C pokemonName delay w0).2.data = some (.returned v))
    ∧ read (run fs (imageLoad w0.env.images.length
          (run es (createPokemonResource C pokemonName delay w0).1)))
        (createPokemonResource C pokemonName delay w0).2.image
        = some (.returned (.str (C.getImageUrlForPokemon pokemonName))) := by
  have himage : (createPokemonResource C pokemonName delay w0).2.image
      = { cell := w0.cells.length + 1 } := by
    simp [createPokemonResource, createResource]
  refine ⟨rfl, by rw [himage], ?_, ?_, ?_, ?_, ?_,
    createPokemonResource_images C pokemonName delay w0, ?_,
    by rw [himage]; exact image_read_after_load C pokemonName delay w0 hwf es fs⟩
  · simp [createPokemonResource, createResource]
  · rw [fetchCalls_run]
    simp [createPokemonResource, createResource, fetchPokemon, preloadImage]
  · show ((createPokemonResource C pokemonName delay w0).1.cells[w0.cells.length]?).map _ = _
    rw [(createPokemonResource_tracks_data C pokemonName delay w0).here]; rfl
  · simp only [World.stateOf]
    rw [createPokemonResource_operations, List.getElem?_append_right (le_refl _)]
    simp
  · rw [himage, (createPokemonResource_tracks_image C pokemonName delay w0).here]; rfl
  · intro hres hran
    obtain ⟨c, hc⟩ :=
      tracked_run ⟨_, createPokemonResource_tracks_data C pokemonName delay w0⟩ es
    exact read_fulfilled_of_tracks hc hres hran fs

/-- Claim C7, witness: the fetch resolves later and its continuation runs, then
the image loads. -/
theorem createPokemonResource_pair_witness :
    World.empty.env.WellFormed
    ∧ ((run [Event.settle 0 (.fulfilled (.record pikachu)), Event.deliver 0]
          (createPokemonResource slowFetch "pikachu" 400 World.empty).1).stateOf
          (.operation 0) = .fulfilled (.record pikachu)
      ∧ continuationRan (run [Event.settle 0 (.fulfilled (.record pikachu)), Event.deliver 0]
          (createPokemonResource slowFetch "pikachu" 400 World.empty).1)
          (createPokemonResource slowFetch "pikachu" 400 World.empty).2.data
      ∧ read (run [Event.read { cell := 0 }]
          (run [Event.settle 0 (.fulfilled (.record pikachu)), Event.deliver 0]
            (createPokemonResource slowFetch "pikachu" 400 World.empty).1))
          (createPokemonResource slowFetch "pikachu" 400 World.empty).2.data
          = some (.returned (.record pikachu)))
    ∧ read (run [Event.read { cell := 0 }] (imageLoad 0
        (run [Event.settle 0 (.fulfilled (.record pikachu)), Event.deliver 0]
          (createPokemonResource slowFetch "pikachu" 400 World.empty).1)))
        (createPokemonResource slowFetch "pikachu" 400 World.empty).2.image
        = some (.returned (.str "/img/pokemon/pikachu.jpg")) :=
  have hwf : World.empty.env.WellFormed := fun _ h => by cases h
  ⟨hwf,
    ⟨by decide, by decide,
      (createPokemonResource_pair slowFetch "pikachu" 400 World.empty hwf
        [Event.settle 0 (.fulfilled (.record pikachu)), Event.deliver 0]
        [Event.read { cell := 0 }] (.record pikachu)).2.2.2.2.2.2.2.2.1
        (by decide) (by decide)⟩,
    (createPokemonResource_pair slowFetch "pikachu" 400 World.empty hwf
      [Event.settle 0 (.fulfilled (.record pikachu)), Event.deliver 0]
      [Event.read { cell := 0 }] (.record pikachu)).2.2.2.2.2.2.2.2.2⟩

/-! ## Rendering an item (C10) -/

/-- The outcome of a read in terms of `status` alone. -/
theorem read_by_status {c : Cell} {s : PromiseState} (h : Phase c s) :
    (c.status = "pending" ∧ c.read = .threw (.promise c.promise))
    ∨ (c.status = "error" ∧ c.read = .threw (.value c.result))
    ∨ (c.status = "success" ∧ c.read = .returned c.result) := by
  rcases read_of_phase h with h | h | h
  · exact Or.inl ⟨h.1, h.2.2⟩
  · exact Or.inr (Or.inr ⟨h.1, h.2.2.2⟩)
  · exact Or.inr (Or.inl ⟨h.1, h.2.2.2⟩)

/-- Claim C10: for every pair built by `createPokemonResource`, in every state
reached afterwards, where the data resource holds a pokemon record once it is
successful: rendering `PokemonInfo` produces the item's content if and only if
`data` and `image` are both `'success'`; otherwise it raises the outcome of the
first read that is not a success, in the order data, image: the pending promise
or the error of `data`, without reading `image`, when `data` is not a success,
and the pending promise or the error of `image` only when `data` is. -/
theorem pokemonInfo_render (C : Collaborators) (pokemonName : String) (delay : Nat)
    (w0 : World) (es : List Event)
    (hrec : ∀ c, (run es (createPokemonResource C pokemonName delay w0).1).cells[
        (createPokemonResource C pokemonName delay w0).2.data.cell]? = some c →
      c.status = "success" → ∃ p, c.result = .record p) :
    ∃ d i,
      (run es (createPokemonResource C pokemonName delay w0).1).cells[
          (createPokemonResource C pokemonName delay w0).2.data.cell]? = some d
      ∧ (run es (createPokemonResource C pokemonName delay w0).1).cells[
          (createPokemonResource C pokemonName delay w0).2.image.cell]? = some i
      ∧ ((∃ content, PokemonInfo (run es (createPokemonResource C pokemonName delay w0).1)
            (createPokemonResource C pokemonName delay w0).2
            = some { reads := [(createPokemonResource C pokemonName delay w0).2.data,
                        (createPokemonResource C pokemonName delay w0).2.image],
                     outcome := .returned content })
          ↔ (d.status = "success" ∧ i.status = "success"))
      ∧ (d.status = "pending" ∨ d.status = "error" ∨ d.status = "success")
      ∧ (i.status = "pending" ∨ i.status = "error" ∨ i.status = "success")
      ∧ (d.status = "pending" →
          PokemonInfo (run es (createPokemonResource C pokemonName delay w0).1)
            (createPokemonResource C pokemonName delay w0).2
            = some { reads := [(createPokemonResource C pokemonName delay w0).2.data],
                     outcome := .threw (.promise d.promise) })
      ∧ (d.status = "error" →
          PokemonInfo (run es (createPokemonResource C pokemonName delay w0).1)
            (createPokemonResource C pokemonName delay w0).2
            = some { reads := [(createPokemonResource C pokemonName delay w0).2.data],
                     outcome := .threw (.value d.result) })
      ∧ (d.status = "success" → i.status = "pending" →
          PokemonInfo (run es (createPokemonResource C pokemonName delay w0).1)
            (createPokemonResource C pokemonName delay w0).2
            = some { reads := [(createPokemonResource C pokemonName delay w0).2.data,
                        (createPokemonResource C pokemonName delay w0).2.image],
                     outcome := .threw (.promise i.promise) })
      ∧ (d.status = "success" → i.status = "error" →
          PokemonInfo (run es (createPokemonResource C pokemonName delay w0).1)
            (createPokemonResource C pokemonName delay w0).2
            = some { reads := [(createPokemonResource C pokemonName delay w0).2.data,
                        (createPokemonResource C pokemonName delay w0).2.image],
                     outcome := .threw (.value i.result) })
      ∧ (d.status = "success" → i.status = "success" →
          ∃ p, d.result = .record p
            ∧ PokemonInfo (run es (createPokemonResource C pokemonName delay w0).1)
                (createPokemonResource C pokemonName delay w0).2
              = some { reads := [(createPokemonResource C pokemonName delay w0).2.data,
                          (createPokemonResource C pokemonName delay w0).2.image],
                       outcome := .returned
                         { imgSrc := i.result, imgAlt := p.name, name := p.name,
                           number := p.number, attacks := p.special,
                           fetchedAt := p.fetchedAt } }) := by
  have hpair : (createPokemonResource C pokemonName delay w0).2
      = { data := { cell := w0.cells.length }, image := { cell := w0.cells.length + 1 } } := by
    simp [createPokemonResource, createResource]
  rw [hpair] at hrec ⊢
  obtain ⟨d, hd⟩ := tracked_run ⟨_, createPokemonResource_tracks_data C pokemonName delay w0⟩ es
  obtain ⟨i, hi⟩ := tracked_run ⟨_, createPokemonResource_tracks_image C pokemonName delay w0⟩ es
  have hPI : PokemonInfo (run es (createPokemonResource C pokemonName delay w0).1)
      { data := { cell := w0.cells.length }, image := { cell := w0.cells.length + 1 } }
      = some (renderWith
          { data := { cell := w0.cells.length }, image := { cell := w0.cells.length + 1 } }
          d.read i.read) := by
    simp only [PokemonInfo, hd.read_eq, hi.read_eq]
  have hrec' := hrec d hd.here
  refine ⟨d, i, hd.here, hi.here, ?_, ?_, ?_, ?_, ?_, ?_, ?_, ?_⟩
  · rw [hPI]
    rcases read_by_status hd.phase with ⟨hds, hdr⟩ | ⟨hds, hdr⟩ | ⟨hds, hdr⟩
    · simp [renderWith, hdr, hds]
    · simp [renderWith, hdr, hds]
    · obtain ⟨p, hp⟩ := hrec' hds
      rcases read_by_status hi.phase with ⟨his, hir⟩ | ⟨his, hir⟩ | ⟨his, hir⟩
      · simp [renderWith, hdr, hds, hir, his]
      · simp [renderWith, hdr, hds, hir, his]
      · simp [renderWith, hdr, hds, hir, his, hp]
  · rcases read_by_status hd.phase with h | h | h
    · exact Or.inl h.1
    · exact Or.inr (Or.inl h.1)
    · exact Or.inr (Or.inr h.1)
  · rcases read_by_status hi.phase with h | h | h
    · exact Or.inl h.1
    · exact Or.inr (Or.inl h.1)
    · exact Or.inr (Or.inr h.1)
  · intro hds
    rw [hPI]
    simp [renderWith, Cell.read, hds]
  · intro hds
    rw [hPI]
    simp [renderWith, Cell.read, hds]
  · intro hds his
    rw [hPI]
    simp [renderWith, Cell.read, hds, his]
  · intro hds his
    rw [hPI]
    simp [renderWith, Cell.read, hds, his]
  · intro hds his
    obtain ⟨p, hp⟩ := hrec' hds
    refine ⟨p, hp, ?_⟩
    rw [hPI]
    simp [renderWith, Cell.read, hds, his, hp]

/-- Claim C10, witness: the fetch resolved with a record and was delivered, the
image loaded: the render produces the content. -/
theorem pokemonInfo_render_witness :
    (∀ c, (run [Event.settle 0 (.fulfilled (.record pikachu)), Event.deliver 0,
          Event.imageLoad 0] (createPokemonResource slowFetch "pikachu" 400 World.empty).1).cells[
          (createPokemonResource slowFetch "pikachu" 400 World.empty).2.data.cell]? = some c →
        c.status = "success" → ∃ p, c.result = .record p)
    ∧ ∃ content, PokemonInfo
        (run [Event.settle 0 (.fulfilled (.record pikachu)), Event.deliver 0,
          Event.imageLoad 0] (createPokemonResource slowFetch "pikachu" 400 World.empty).1)
        (createPokemonResource slowFetch "pikachu" 400 World.empty).2
        = some { reads := [(createPokemonResource slowFetch "pikachu" 400 World.empty).2.data,
                    (createPokemonResource slowFetch "pikachu" 400 World.empty).2.image],
                 outcome := .returned content } := by
  have hres : ((run [Event.settle 0 (.fulfilled (.record pikachu)), Event.deliver 0,
      Event.imageLoad 0] (createPokemonResource slowFetch "pikachu" 400 World.empty).1).cells[
      (createPokemonResource slowFetch "pikachu" 400 World.empty).2.data.cell]?).map
      (fun c => (c.status, c.result)) = some ("success", .record pikachu) := by decide
  have hims : ((run [Event.settle 0 (.fulfilled (.record pikachu)), Event.deliver 0,
      Event.imageLoad 0] (createPokemonResource slowFetch "pikachu" 400 World.empty).1).cells[
      (createPokemonResource slowFetch "pikachu" 400 World.empty).2.image.cell]?).map
      Cell.status = some "success" := by decide
  have hrec : ∀ c, (run [Event.settle 0 (.fulfilled (.record pikachu)), Event.deliver 0,
      Event.imageLoad 0] (createPokemonResource slowFetch "pikachu" 400 World.empty).1).cells[
      (createPokemonResource slowFetch "pikachu" 400 World.empty).2.data.cell]? = some c →
      c.status = "success" → ∃ p, c.result = .record p := by
    intro c hc _
    rw [hc] at hres
    simp only [Option.map_some', Option.some.injEq, Prod.mk.injEq] at hres
    exact ⟨pikachu, hres.2⟩
  refine ⟨hrec, ?_⟩
  obtain ⟨d, i, hd, hi, hiff, -⟩ := pokemonInfo_render slowFetch "pikachu" 400 World.empty
    [Event.settle 0 (.fulfilled (.record pikachu)), Event.deliver 0, Event.imageLoad 0] hrec
  rw [hd] at hres
  rw [hi] at hims
  simp only [Option.map_some', Option.some.injEq, Prod.mk.injEq] at hres hims
  exact hiff.mpr ⟨hres.1, hims⟩

end ReactSuspense
